import Mathlib

/-!
Verification of the Carbon-RWA pipeline (`dataset.py`).

We shallowly embed the numerical core of the script over `ℝ`:
the Basel AIRB capital function `calculate_rwa`, the climate stress
transform producing `Stressed_PD`, the net-income formula, the
`fillna(0)` anomaly pass, the linear-program data handed to
`scipy.optimize.linprog`, and the success/failure branch that follows
the solve.  The standard normal CDF is embedded as the normalised
Gaussian integral and `norm.ppf` as the corresponding quantile.
-/

open MeasureTheory Set
open scoped Real

/-! ## Standard normal CDF and quantile (embedding of `scipy.stats.norm`) -/

/-- Unnormalised standard Gaussian density `exp (-t^2 / 2)`. -/
noncomputable def gaussDens (t : ℝ) : ℝ := Real.exp (-t ^ 2 / 2)

/-- Standard normal cumulative distribution function: embedding of
`scipy.stats.norm.cdf`. -/
noncomputable def normCdf (x : ℝ) : ℝ :=
  (∫ t in Iic x, gaussDens t) / Real.sqrt (2 * Real.pi)

/-- Standard normal quantile function (generalised inverse of the CDF):
embedding of `scipy.stats.norm.ppf`. -/
noncomputable def normPpf (p : ℝ) : ℝ := sInf {x : ℝ | p ≤ normCdf x}

/-! ## Part B: the Basel III AIRB risk engine (`calculate_rwa`, lines 101-118) -/

/-- Asset correlation `r` for corporates, exactly as computed from the floored
`pd` in `calculate_rwa` (lines 106-107 of `dataset.py`). -/
noncomputable def corrR (p : ℝ) : ℝ :=
  0.12 * ((1 - Real.exp (-50 * p)) / (1 - Real.exp (-50))) +
    0.24 * (1 - (1 - Real.exp (-50 * p)) / (1 - Real.exp (-50)))

/-- Maturity adjustment `b` computed from the floored `pd`
(line 110 of `dataset.py`). -/
noncomputable def matB (p : ℝ) : ℝ := (0.11852 - 0.05478 * Real.log p) ^ 2

/-- Risk-weighted assets for one facility: embedding of `calculate_rwa`
(lines 101-118 of `dataset.py`).  The input `pd_val` is floored at `0.0003`,
then the correlation `r`, maturity adjustment `b` and the Merton-style
capital ratio `k` are computed, and the result is `exposure * k * 12.5`. -/
noncomputable def calculate_rwa (exposure pd_val lgd maturity : ℝ) : ℝ :=
  let p := max pd_val 0.0003
  let term1 := normPpf p
  let term2 := normPpf 0.999
  let k := (lgd * normCdf ((term1 + Real.sqrt (corrR p) * term2) /
      Real.sqrt (1 - corrR p)) - p * lgd) *
      (1 + (maturity - 2.5) * matB p) / (1 - 1.5 * matB p)
  exposure * k * 12.5

/-! ## Part C: stress transform (lines 131-136) and income (line 141) -/

/-- Carbon tax rate, INR per ton (line 131 of `dataset.py`). -/
noncomputable def carbon_tax : ℝ := 4200

/-- Shock impact of the carbon tax (line 132 of `dataset.py`). -/
noncomputable def shock_impact (carbon_intensity : ℝ) : ℝ :=
  carbon_intensity * carbon_tax / 1000000

/-- Stressed probability of default: the multiplicative uplift of line 133
followed by the hard cap of line 136 of `dataset.py`. -/
noncomputable def stressed_pd (carbon_intensity transition_readiness base_pd : ℝ) : ℝ :=
  min (base_pd * (1 + shock_impact carbon_intensity * (1 - transition_readiness))) 0.999

/-- Net income of one facility under stress (line 141 of `dataset.py`). -/
noncomputable def net_income (exposure interest_rate spd lgd : ℝ) : ℝ :=
  exposure * interest_rate - exposure * spd * lgd

/-! ## The `fillna(0)` anomaly pass (line 142)

Derived columns are IEEE floats, so a cell is either a finite real, a NaN or
a signed infinity.  `pandas.DataFrame.fillna(0)` replaces exactly the NaN
cells by `0` and leaves every other cell (infinities included) unchanged. -/

/-- One float-valued cell of the derived columns. -/
inductive FloatVal where
  | num (x : ℝ)
  | nan
  | inf
  | ninf

/-- Action of `df.fillna(0)` (line 142 of `dataset.py`) on one cell:
NaN becomes `0`, every other value is kept. -/
def fillna0 : FloatVal → FloatVal
  | .nan => .num 0
  | v => v

/-! ## The linear program handed to `scipy.optimize.linprog` (lines 150-166) -/

/-- Per-facility columns of the joined table at the moment the LP is built. -/
structure Portfolio (n : ℕ) where
  exposure : Fin n → ℝ
  currentCapital : Fin n → ℝ
  stressedCapital : Fin n → ℝ
  netIncome : Fin n → ℝ

/-- Result object returned by `scipy.optimize.linprog`: a success flag, the
solution vector `x` and a diagnostic message. -/
structure LinprogResult (n : ℕ) where
  success : Bool
  x : Fin n → ℝ
  message : String

/-- Feasibility for the constraint data the code builds at lines 152-160 of
`dataset.py`: `A_ub = [Stressed_Capital; -Exposure]`,
`b_ub = [1.10 * sum Current_Capital; -0.85 * sum Exposure]`, bounds `(0, 1)`. -/
def codeFeasible {n : ℕ} (P : Portfolio n) (x : Fin n → ℝ) : Prop :=
  (∑ i, P.stressedCapital i * x i) ≤ (∑ i, P.currentCapital i) * 1.10 ∧
  (∑ i, -P.exposure i * x i) ≤ -((∑ i, P.exposure i) * 0.85) ∧
  ∀ i, 0 ≤ x i ∧ x i ≤ 1

/-- Modelled from the spec: `scipy.optimize.linprog` itself is external
library code, not part of this repository.  Per the spec ("Optimizer output
satisfies all three constraints within solver tolerance") a successful solve
returns a point that is feasible for the constraint data it was given; we
idealise solver tolerance as exact feasibility. -/
def linprogSound {n : ℕ} (P : Portfolio n) (res : LinprogResult n) : Prop :=
  res.success = true → codeFeasible P res.x

/-- Output columns appended in the success branch (lines 164-170 of
`dataset.py`): the retention vector, the Hold/Exit strategy labels and the
two aggregate ROE figures. -/
structure OptimizedOutput (n : ℕ) where
  retention : Fin n → ℝ
  strategy : Fin n → String
  baseROE : ℝ
  optROE : ℝ

/-- Post-solve branch of the script (lines 164-180 of `dataset.py`): on
success the output table is extended and written, on failure only the
solver's diagnostic message is reported and no output is produced. -/
noncomputable def postProcess {n : ℕ} (P : Portfolio n) (res : LinprogResult n) :
    Except String (OptimizedOutput n) :=
  if res.success = true then
    Except.ok
      { retention := res.x
        strategy := fun i => if res.x i < 0.1 then "Exit" else "Hold"
        baseROE := (∑ i, P.netIncome i) / (∑ i, P.stressedCapital i)
        optROE := (∑ i, P.netIncome i * res.x i) /
          (∑ i, P.stressedCapital i * res.x i) }
  else
    Except.error res.message

/-! ## Concrete single-facility data used to instantiate the LP theorems -/

/-- A one-facility portfolio with unit columns. -/
noncomputable def wPortfolio : Portfolio 1 :=
  ⟨fun _ => 1, fun _ => 1, fun _ => 1, fun _ => 1⟩

/-- A successful solver result retaining the single facility in full. -/
noncomputable def wRes : LinprogResult 1 := ⟨true, fun _ => 1, "ok"⟩

/-- A failed solver result with a diagnostic message. -/
noncomputable def wResFail : LinprogResult 1 :=
  ⟨false, fun _ => 0, "The problem is infeasible."⟩

/-! ## Claims about the stress transform -/

/-- C2: for every facility the stress transform computes exactly
`shock = (carbon_intensity * 4200) / 1000000` and
`stressed_pd = min (base_pd * (1 + shock * (1 - transition_readiness))) 0.999`,
the multiplicative uplift followed by the hard cap at `0.999`, with the
carbon-tax rate `4200`. -/
theorem c2_stress_transform_formula (ci tr b : ℝ) :
    carbon_tax = 4200 ∧
    shock_impact ci = ci * 4200 / 1000000 ∧
    stressed_pd ci tr b =
      min (b * (1 + ci * 4200 / 1000000 * (1 - tr))) 0.999 :=
  ⟨rfl, rfl, rfl⟩

/-- C3 (counterexample): with a non-negative shock and readiness in `[0, 1]`
the computed `stressed_pd` can fail to dominate `base_pd`: for
`base_pd = 0.9995` the cap pulls the result strictly below `base_pd`, and for
a negative `base_pd` the multiplicative uplift decreases it further. -/
theorem c3_stressed_pd_bounds_cex :
    stressed_pd 0 0 0.9995 < 0.9995 ∧ stressed_pd 1 0 (-1) < -1 := by
  constructor <;> norm_num [stressed_pd, shock_impact, carbon_tax, min_def]

/-- C3 (amended): for every facility with `carbon_intensity ≥ 0`,
`transition_readiness` in `[0, 1]` and `base_pd` in `[0, 0.999]`, the computed
`stressed_pd` satisfies both `stressed_pd ≥ base_pd` and
`stressed_pd ≤ 0.999`. -/
theorem c3_stressed_pd_bounds (ci tr b : ℝ) (hci : 0 ≤ ci) (_htr0 : 0 ≤ tr)
    (htr1 : tr ≤ 1) (hb0 : 0 ≤ b) (hb1 : b ≤ 0.999) :
    b ≤ stressed_pd ci tr b ∧ stressed_pd ci tr b ≤ 0.999 := by
  have hshock : 0 ≤ shock_impact ci := by
    unfold shock_impact carbon_tax; positivity
  refine ⟨le_min ?_ hb1, min_le_right _ _⟩
  nlinarith [mul_nonneg hb0 (mul_nonneg hshock (sub_nonneg.mpr htr1))]

/-- Witness for C3 at `carbon_intensity = 1`, `transition_readiness = 1/2`,
`base_pd = 1/2`. -/
theorem c3_stressed_pd_bounds_witness :
    (1 / 2 : ℝ) ≤ stressed_pd 1 (1 / 2) (1 / 2) ∧
      stressed_pd 1 (1 / 2) (1 / 2) ≤ 0.999 :=
  c3_stressed_pd_bounds 1 (1 / 2) (1 / 2) (by norm_num) (by norm_num)
    (by norm_num) (by norm_num) (by norm_num)

/-- C4 (counterexample): at full readiness the shock term vanishes but the
hard cap still alters a `base_pd` above `0.999`, so the transform is not the
identity there. -/
theorem c4_full_readiness_cex : stressed_pd 0 1 0.9995 ≠ 0.9995 := by
  norm_num [stressed_pd, shock_impact, carbon_tax, min_def]

/-- C4 (amended): for every facility whose `transition_readiness` equals
exactly `1` and whose `base_pd` is at most the cap `0.999`, the stress
transform returns `stressed_pd` exactly equal to `base_pd`, regardless of
`carbon_intensity` (and hence of the carbon-tax rate). -/
theorem c4_full_readiness_identity (ci b : ℝ) (hb : b ≤ 0.999) :
    stressed_pd ci 1 b = b := by
  have h1 : b * (1 + shock_impact ci * (1 - 1)) = b := by ring
  show min (b * (1 + shock_impact ci * (1 - 1))) 0.999 = b
  rw [h1]
  exact min_eq_left hb

/-- Witness for C4 at `carbon_intensity = 7`, `base_pd = 1/2`. -/
theorem c4_full_readiness_identity_witness : stressed_pd 7 1 (1 / 2) = 1 / 2 :=
  c4_full_readiness_identity 7 (1 / 2) (by norm_num)

/-! ## Claims about the capital engine -/

/-- C5: `calculate_rwa` floors `pd` at `0.0003` before any logarithm or
quantile is taken, so the floored argument is strictly positive, and for all
`pd ≤ 0.0003` the result coincides with the result at `pd = 0.0003`. -/
theorem c5_pd_floor_safety (exposure lgd maturity pd_val : ℝ)
    (h : pd_val ≤ 0.0003) :
    (0 : ℝ) < max pd_val 0.0003 ∧
    calculate_rwa exposure pd_val lgd maturity =
      calculate_rwa exposure 0.0003 lgd maturity := by
  constructor
  · exact lt_of_lt_of_le (by norm_num) (le_max_right _ _)
  · unfold calculate_rwa
    rw [max_eq_right h, max_self]

/-- Witness for C5 at `pd = 0`. -/
theorem c5_pd_floor_safety_witness :
    (0 : ℝ) < max 0 0.0003 ∧
    calculate_rwa 1 0 1 1 = calculate_rwa 1 0.0003 1 1 :=
  c5_pd_floor_safety 1 1 1 0 (by norm_num)

/-- C10: for every input `pd ≤ 1`, the maturity adjustment computed from the
floored `pd` is at most its value at the floor `0.0003`, and the denominator
`1 - 1.5 * b` of `calculate_rwa` stays strictly above `1/2`, so the division
is never by zero or by a negative number, for every maturity. -/
theorem c10_maturity_adjustment_bounded (pd_val : ℝ) (h : pd_val ≤ 1) :
    matB (max pd_val 0.0003) ≤ matB 0.0003 ∧
    1 / 2 < 1 - 1.5 * matB (max pd_val 0.0003) := by
  have hp3 : (0.0003 : ℝ) ≤ max pd_val 0.0003 := le_max_right _ _
  have hppos : (0 : ℝ) < max pd_val 0.0003 := lt_of_lt_of_le (by norm_num) hp3
  have hp1 : max pd_val 0.0003 ≤ 1 := max_le h (by norm_num)
  have hlogle : Real.log 0.0003 ≤ Real.log (max pd_val 0.0003) :=
    Real.log_le_log (by norm_num) hp3
  have hlognp : Real.log (max pd_val 0.0003) ≤ 0 :=
    Real.log_nonpos hppos.le hp1
  have hinv : Real.log 0.0003 = -Real.log (10000 / 3) := by
    rw [show (0.0003 : ℝ) = (10000 / 3)⁻¹ by norm_num, Real.log_inv]
  have hlog3 : Real.log (10000 / 3) ≤ 12 * Real.log 2 := by
    calc Real.log (10000 / 3) ≤ Real.log 4096 :=
          Real.log_le_log (by norm_num) (by norm_num)
      _ = 12 * Real.log 2 := by
          rw [show (4096 : ℝ) = 2 ^ 12 by norm_num, Real.log_pow]
          push_cast; ring
  have hlog2 : Real.log 2 < 0.6931471808 := Real.log_two_lt_d9
  have hlb : -8.3178 ≤ Real.log 0.0003 := by
    rw [hinv]
    nlinarith
  have hfac0 : 0 ≤ 0.11852 - 0.05478 * Real.log (max pd_val 0.0003) := by nlinarith
  have hfacle : 0.11852 - 0.05478 * Real.log (max pd_val 0.0003) ≤
      0.11852 - 0.05478 * Real.log 0.0003 := by nlinarith
  have hfachi : 0.11852 - 0.05478 * Real.log 0.0003 ≤ 0.5743 := by nlinarith
  have h1 : matB (max pd_val 0.0003) ≤ matB 0.0003 := by
    unfold matB
    exact pow_le_pow_left₀ hfac0 hfacle 2
  have h2 : matB 0.0003 < 1 / 3 := by
    have hge : (0:ℝ) ≤ 0.11852 - 0.05478 * Real.log 0.0003 :=
      le_trans hfac0 hfacle
    unfold matB
    nlinarith
  exact ⟨h1, by nlinarith⟩

/-- Witness for C10 at `pd = 1`. -/
theorem c10_maturity_adjustment_bounded_witness :
    matB (max 1 0.0003) ≤ matB 0.0003 ∧
    1 / 2 < 1 - 1.5 * matB (max 1 0.0003) :=
  c10_maturity_adjustment_bounded 1 (by norm_num)

/-! ## Claims about income, anomalies, the LP and the output branch -/

/-- C9: for every facility with positive exposure, the net income used as LP
objective coefficient equals `Exposure * Interest_Rate -
Exposure * Stressed_PD * LGD`, and it is strictly negative exactly when
`Stressed_PD * LGD > Interest_Rate`. -/
theorem c9_net_income_formula (exposure interest_rate spd lgd : ℝ)
    (he : 0 < exposure) :
    net_income exposure interest_rate spd lgd =
      exposure * interest_rate - exposure * spd * lgd ∧
    (net_income exposure interest_rate spd lgd < 0 ↔ interest_rate < spd * lgd) := by
  refine ⟨rfl, ?_⟩
  unfold net_income
  rw [sub_neg, mul_assoc]
  exact mul_lt_mul_left he

/-- Witness for C9 at exposure `2`, interest rate `1/10`, stressed pd `1/2`,
lgd `9/20` (income negative since `0.225 > 0.1`). -/
theorem c9_net_income_formula_witness :
    net_income 2 (1 / 10) (1 / 2) (9 / 20) =
      2 * (1 / 10) - 2 * (1 / 2) * (9 / 20) ∧
    (net_income 2 (1 / 10) (1 / 2) (9 / 20) < 0 ↔
      (1 / 10 : ℝ) < 1 / 2 * (9 / 20)) :=
  c9_net_income_formula 2 (1 / 10) (1 / 2) (9 / 20) (by norm_num)

/-- C8: the anomaly pass `df.fillna(0)` replaces a NaN cell by zero but keeps
an infinite cell unchanged, so an infinity would reach the solver, contrary to
the spec's requirement that NaN and Infinity are both neutralized to zero. -/
theorem c8_fillna_inf_behavior :
    fillna0 FloatVal.inf = FloatVal.inf ∧
    fillna0 FloatVal.ninf = FloatVal.ninf ∧
    fillna0 FloatVal.nan = FloatVal.num 0 :=
  ⟨rfl, rfl, rfl⟩

/-- C6: whenever the solver succeeds (and, as the spec states of `linprog`,
returns a point feasible for the constraint data it was handed), the retention
vector satisfies the three LP constraints: aggregate stressed capital at most
`1.10` times aggregate current capital, aggregate retained exposure at least
`0.85` of total exposure, and every retention in `[0, 1]`. -/
theorem c6_optimizer_constraints {n : ℕ} (P : Portfolio n)
    (res : LinprogResult n) (hsound : linprogSound P res)
    (hs : res.success = true) :
    (∑ i, res.x i * P.stressedCapital i) ≤ 1.10 * ∑ i, P.currentCapital i ∧
    0.85 * (∑ i, P.exposure i) ≤ ∑ i, res.x i * P.exposure i ∧
    ∀ i, 0 ≤ res.x i ∧ res.x i ≤ 1 := by
  obtain ⟨h1, h2, h3⟩ := hsound hs
  refine ⟨?_, ?_, h3⟩
  · calc (∑ i, res.x i * P.stressedCapital i)
        = ∑ i, P.stressedCapital i * res.x i :=
          Finset.sum_congr rfl fun i _ => mul_comm _ _
      _ ≤ (∑ i, P.currentCapital i) * 1.10 := h1
      _ = 1.10 * ∑ i, P.currentCapital i := mul_comm _ _
  · have h2' : -(∑ i, P.exposure i * res.x i) ≤
        -((∑ i, P.exposure i) * 0.85) := by
      calc -(∑ i, P.exposure i * res.x i)
          = ∑ i, -P.exposure i * res.x i := by
            rw [← Finset.sum_neg_distrib]
            exact Finset.sum_congr rfl fun i _ => (neg_mul _ _).symm
        _ ≤ -((∑ i, P.exposure i) * 0.85) := h2
    have h2'' : (∑ i, P.exposure i) * 0.85 ≤ ∑ i, P.exposure i * res.x i :=
      le_of_neg_le_neg h2'
    calc (0.85 : ℝ) * (∑ i, P.exposure i) = (∑ i, P.exposure i) * 0.85 :=
          mul_comm _ _
      _ ≤ ∑ i, P.exposure i * res.x i := h2''
      _ = ∑ i, res.x i * P.exposure i :=
          Finset.sum_congr rfl fun i _ => mul_comm _ _

/-- Witness for C6 on a one-facility portfolio with unit data and the full
retention vector. -/
theorem c6_optimizer_constraints_witness :
    (∑ i, wRes.x i * wPortfolio.stressedCapital i) ≤
      1.10 * ∑ i, wPortfolio.currentCapital i ∧
    0.85 * (∑ i, wPortfolio.exposure i) ≤ ∑ i, wRes.x i * wPortfolio.exposure i ∧
    ∀ i, 0 ≤ wRes.x i ∧ wRes.x i ≤ 1 :=
  c6_optimizer_constraints wPortfolio wRes
    (fun _ => by
      refine ⟨?_, ?_, fun i => ⟨?_, ?_⟩⟩ <;>
        norm_num [codeFeasible, wPortfolio, wRes, Fin.sum_univ_one])
    rfl

/-- C7: if the solve fails (`res.success` is false) the script reports the
solver's diagnostic message and produces no output table: no retention,
strategy or ROE values are derived and nothing is written. -/
theorem c7_failure_no_output {n : ℕ} (P : Portfolio n) (res : LinprogResult n)
    (h : res.success = false) :
    postProcess P res = Except.error res.message ∧
    ∀ out : OptimizedOutput n, postProcess P res ≠ Except.ok out := by
  have hpp : postProcess P res = Except.error res.message := by
    simp [postProcess, h]
  exact ⟨hpp, fun out hout => by rw [hpp] at hout; exact Except.noConfusion hout⟩

/-- Witness for C7 on a failed one-facility solve. -/
theorem c7_failure_no_output_witness :
    postProcess wPortfolio wResFail = Except.error wResFail.message ∧
    ∀ out : OptimizedOutput 1, postProcess wPortfolio wResFail ≠ Except.ok out :=
  c7_failure_no_output wPortfolio wResFail rfl

/-! ## Analytic facts about the embedded normal CDF and quantile -/

theorem gaussDens_pos (t : ℝ) : 0 < gaussDens t := Real.exp_pos _

theorem gaussDens_integrable : Integrable gaussDens := by
  have h : gaussDens = fun t : ℝ => Real.exp (-(1 / 2 : ℝ) * t ^ 2) := by
    funext t
    unfold gaussDens
    congr 1
    ring
  rw [h]
  exact integrable_exp_neg_mul_sq (by norm_num)

theorem gaussDens_total : ∫ t, gaussDens t = Real.sqrt (2 * Real.pi) := by
  have h : gaussDens = fun t : ℝ => Real.exp (-(1 / 2 : ℝ) * t ^ 2) := by
    funext t
    unfold gaussDens
    congr 1
    ring
  rw [h, integral_gaussian]
  congr 1
  ring

theorem sqrt_two_pi_pos : 0 < Real.sqrt (2 * Real.pi) :=
  Real.sqrt_pos.mpr (by positivity)

theorem sqrt_two_pi_lt : Real.sqrt (2 * Real.pi) ≤ 2.51 := by
  rw [show ((2.51 : ℝ)) = Real.sqrt (2.51 ^ 2) from (Real.sqrt_sq (by norm_num)).symm]
  apply Real.sqrt_le_sqrt
  nlinarith [Real.pi_lt_d2]

theorem sqrt_two_pi_gt : 2.5 ≤ Real.sqrt (2 * Real.pi) := by
  rw [Real.le_sqrt (by norm_num) (by positivity)]
  nlinarith [Real.pi_gt_d2]

theorem gauss_Iic_lt_gauss_Iic {a b : ℝ} (hab : a < b) :
    (∫ t in Iic a, gaussDens t) < ∫ t in Iic b, gaussDens t := by
  have hsub : (∫ t in Iic b, gaussDens t) - ∫ t in Iic a, gaussDens t =
      ∫ t in a..b, gaussDens t :=
    intervalIntegral.integral_Iic_sub_Iic gaussDens_integrable.integrableOn
      gaussDens_integrable.integrableOn
  have hpos : 0 < ∫ t in a..b, gaussDens t :=
    intervalIntegral.intervalIntegral_pos_of_pos
      gaussDens_integrable.intervalIntegrable gaussDens_pos hab
  linarith

theorem normCdf_strictMono : StrictMono normCdf := by
  intro a b hab
  unfold normCdf
  exact (div_lt_div_iff_of_pos_right sqrt_two_pi_pos).mpr (gauss_Iic_lt_gauss_Iic hab)

theorem normCdf_nonneg (x : ℝ) : 0 ≤ normCdf x := by
  unfold normCdf
  apply div_nonneg _ sqrt_two_pi_pos.le
  exact setIntegral_nonneg measurableSet_Iic fun t _ => (gaussDens_pos t).le

theorem normCdf_le_one (x : ℝ) : normCdf x ≤ 1 := by
  unfold normCdf
  rw [div_le_one sqrt_two_pi_pos]
  calc (∫ t in Iic x, gaussDens t) ≤ ∫ t, gaussDens t :=
        setIntegral_le_integral gaussDens_integrable
          (Filter.Eventually.of_forall fun t => (gaussDens_pos t).le)
    _ = Real.sqrt (2 * Real.pi) := gaussDens_total

theorem gauss_Iic_add_Ioi (b : ℝ) :
    (∫ t in Iic b, gaussDens t) + ∫ t in Ioi b, gaussDens t =
      Real.sqrt (2 * Real.pi) := by
  rw [← gaussDens_total]
  exact intervalIntegral.integral_Iic_add_Ioi gaussDens_integrable.integrableOn
    gaussDens_integrable.integrableOn

theorem gauss_Iic_zero :
    (∫ t in Iic (0 : ℝ), gaussDens t) = Real.sqrt (2 * Real.pi) / 2 := by
  have heven : (∫ t in Iic (0 : ℝ), gaussDens t) =
      ∫ t in Ioi (0 : ℝ), gaussDens t := by
    have h1 : (∫ t in Iic (0 : ℝ), gaussDens t) =
        ∫ t in Iic (0 : ℝ), gaussDens (-t) := by
      apply setIntegral_congr_fun measurableSet_Iic
      intro t _
      simp [gaussDens]
    rw [h1, integral_comp_neg_Iic, neg_zero]
  have hsum := gauss_Iic_add_Ioi 0
  linarith

theorem normCdf_zero : normCdf 0 = 1 / 2 := by
  unfold normCdf
  rw [gauss_Iic_zero]
  field_simp
  ring

theorem gauss_interval_lower {a b : ℝ} (ha : 0 ≤ a) (hab : a ≤ b) :
    (b - a) * gaussDens b ≤ ∫ t in a..b, gaussDens t := by
  have hmono : ∀ t ∈ Icc a b, gaussDens b ≤ gaussDens t := by
    intro t ht
    unfold gaussDens
    apply Real.exp_le_exp.mpr
    have h1 : t ^ 2 ≤ b ^ 2 := by nlinarith [ht.1, ht.2]
    linarith
  calc (b - a) * gaussDens b = ∫ _ in a..b, gaussDens b := by
        rw [intervalIntegral.integral_const, smul_eq_mul]
    _ ≤ ∫ t in a..b, gaussDens t :=
        intervalIntegral.integral_mono_on hab intervalIntegrable_const
          gaussDens_integrable.intervalIntegrable hmono

theorem exp_neg_two_ge : (0.135 : ℝ) ≤ Real.exp (-2) := by
  have he2 : Real.exp 2 = Real.exp 1 * Real.exp 1 := by
    rw [← Real.exp_add]; norm_num
  have hlt : Real.exp 2 < 7.39 := by
    nlinarith [Real.exp_one_lt_d9, Real.exp_pos 1]
  have hinv : Real.exp (-2) * Real.exp 2 = 1 := by
    rw [← Real.exp_add]; norm_num
  nlinarith [Real.exp_pos (-2 : ℝ),
    mul_nonneg (Real.exp_pos (-2 : ℝ)).le (sub_nonneg.mpr hlt.le)]

theorem exp_neg_eight_le : Real.exp (-8) ≤ 0.0025 := by
  have he2 : Real.exp 2 = Real.exp 1 * Real.exp 1 := by
    rw [← Real.exp_add]; norm_num
  have he4 : Real.exp 4 = Real.exp 2 * Real.exp 2 := by
    rw [← Real.exp_add]; norm_num
  have he8 : Real.exp 8 = Real.exp 4 * Real.exp 4 := by
    rw [← Real.exp_add]; norm_num
  have h2 : (7.3 : ℝ) < Real.exp 2 := by
    nlinarith [Real.exp_one_gt_d9, Real.exp_pos 1]
  have h4 : (53 : ℝ) < Real.exp 4 := by nlinarith
  have h8 : (400 : ℝ) < Real.exp 8 := by nlinarith
  have hinv : Real.exp (-8) * Real.exp 8 = 1 := by
    rw [← Real.exp_add]; norm_num
  nlinarith [Real.exp_pos (-8 : ℝ),
    mul_nonneg (Real.exp_pos (-8 : ℝ)).le (sub_nonneg.mpr h8.le)]

theorem normCdf_one_lt : normCdf 1 < 0.999 := by
  have hioi : (0.135 : ℝ) ≤ ∫ t in Ioi (1 : ℝ), gaussDens t := by
    have h1 : (∫ t in Ioc (1 : ℝ) 2, gaussDens t) ≤
        ∫ t in Ioi (1 : ℝ), gaussDens t :=
      setIntegral_mono_set gaussDens_integrable.integrableOn
        (Filter.Eventually.of_forall fun t => (gaussDens_pos t).le)
        (HasSubset.Subset.eventuallyLE Ioc_subset_Ioi_self)
    have h2 : (∫ t in (1 : ℝ)..2, gaussDens t) =
        ∫ t in Ioc (1 : ℝ) 2, gaussDens t :=
      intervalIntegral.integral_of_le (by norm_num)
    have h3 : ((2 : ℝ) - 1) * gaussDens 2 ≤ ∫ t in (1 : ℝ)..2, gaussDens t :=
      gauss_interval_lower (by norm_num) (by norm_num)
    have h4 : (0.135 : ℝ) ≤ gaussDens 2 := by
      unfold gaussDens
      rw [show (-(2 : ℝ) ^ 2 / 2) = -2 by norm_num]
      exact exp_neg_two_ge
    linarith
  have hsum := gauss_Iic_add_Ioi 1
  unfold normCdf
  rw [div_lt_iff sqrt_two_pi_pos]
  nlinarith [sqrt_two_pi_lt, sqrt_two_pi_gt]

theorem gauss_Ioi_four_le : (∫ t in Ioi (4 : ℝ), gaussDens t) ≤ 0.00125 := by
  have h1 : (∫ t in Ioi (4 : ℝ), gaussDens t) ≤
      ∫ t in Ioi (4 : ℝ), Real.exp (-2 * t) := by
    apply setIntegral_mono_on gaussDens_integrable.integrableOn
      (exp_neg_integrableOn_Ioi 4 (by norm_num)) measurableSet_Ioi
    intro t ht
    unfold gaussDens
    apply Real.exp_le_exp.mpr
    have ht4 : (4 : ℝ) < t := ht
    nlinarith
  have htend : Filter.Tendsto (fun t : ℝ => -Real.exp (-2 * t) / 2)
      Filter.atTop (nhds 0) := by
    have h0 : Filter.Tendsto (fun t : ℝ => Real.exp (-2 * t))
        Filter.atTop (nhds 0) :=
      Real.tendsto_exp_atBot.comp
        (Filter.tendsto_id.const_mul_atTop_of_neg (by norm_num))
    have := (h0.neg).div_const 2
    simpa using this
  have hderiv : ∀ x ∈ Ici (4 : ℝ),
      HasDerivAt (fun t : ℝ => -Real.exp (-2 * t) / 2) (Real.exp (-2 * x)) x := by
    intro x _
    have h := (((hasDerivAt_id x).const_mul (-2 : ℝ)).exp.neg).div_const 2
    simp only [id_eq] at h
    convert h using 1
    ring
  have h2 : (∫ t in Ioi (4 : ℝ), Real.exp (-2 * t)) = Real.exp (-8) / 2 := by
    rw [MeasureTheory.integral_Ioi_of_hasDerivAt_of_tendsto' hderiv
      (exp_neg_integrableOn_Ioi 4 (by norm_num)) htend]
    rw [show ((-2 : ℝ) * 4) = -8 by norm_num]
    ring
  have h3 := exp_neg_eight_le
  linarith

theorem normCdf_four_ge : (0.999 : ℝ) ≤ normCdf 4 := by
  have hsum := gauss_Iic_add_Ioi 4
  have htail := gauss_Ioi_four_le
  unfold normCdf
  rw [le_div_iff sqrt_two_pi_pos]
  nlinarith [sqrt_two_pi_gt, sqrt_two_pi_lt]

theorem normPpf_half : normPpf (1 / 2) = 0 := by
  have hset : {x : ℝ | (1 / 2 : ℝ) ≤ normCdf x} = Ici 0 := by
    ext x
    simp only [mem_setOf_eq, mem_Ici]
    constructor
    · intro h
      by_contra hx
      push_neg at hx
      have hlt := normCdf_strictMono hx
      rw [normCdf_zero] at hlt
      linarith
    · intro h
      have hle := normCdf_strictMono.monotone h
      rw [normCdf_zero] at hle
      linarith
  unfold normPpf
  rw [hset, csInf_Ici]

theorem normPpf_999_ge : (1 : ℝ) ≤ normPpf 0.999 := by
  unfold normPpf
  refine le_csInf ⟨4, ?_⟩ ?_
  · show (0.999 : ℝ) ≤ normCdf 4
    exact normCdf_four_ge
  intro x hx
  by_contra h
  push_neg at h
  have hlt : normCdf x < normCdf 1 := normCdf_strictMono h
  have hx' : (0.999 : ℝ) ≤ normCdf x := hx
  linarith [normCdf_one_lt]

theorem normCdf_point34_ge : (0.52 : ℝ) ≤ normCdf 0.34 := by
  have hint : (0.3202 : ℝ) ≤ ∫ t in (0 : ℝ)..0.34, gaussDens t := by
    have h3 := gauss_interval_lower (a := 0) (b := 0.34) (by norm_num) (by norm_num)
    have h4 : (0.9422 : ℝ) ≤ gaussDens 0.34 := by
      unfold gaussDens
      rw [show (-(0.34 : ℝ) ^ 2 / 2) = -0.0578 by norm_num]
      nlinarith [Real.add_one_le_exp (-0.0578 : ℝ)]
    nlinarith
  have hsub : (∫ t in Iic (0.34 : ℝ), gaussDens t) -
      ∫ t in Iic (0 : ℝ), gaussDens t = ∫ t in (0 : ℝ)..0.34, gaussDens t :=
    intervalIntegral.integral_Iic_sub_Iic gaussDens_integrable.integrableOn
      gaussDens_integrable.integrableOn
  have h0 := gauss_Iic_zero
  unfold normCdf
  rw [le_div_iff sqrt_two_pi_pos]
  nlinarith [sqrt_two_pi_lt, sqrt_two_pi_gt]

theorem corrR_mem {p : ℝ} (h0 : 0 < p) (h1 : p ≤ 1) :
    0.12 ≤ corrR p ∧ corrR p ≤ 0.24 := by
  have hE : Real.exp (-50 : ℝ) < 1 := Real.exp_lt_one_iff.mpr (by norm_num)
  have hEp : Real.exp (-50 * p) < 1 := Real.exp_lt_one_iff.mpr (by nlinarith)
  have hle : Real.exp (-50 : ℝ) ≤ Real.exp (-50 * p) :=
    Real.exp_le_exp.mpr (by nlinarith)
  have hEppos := Real.exp_pos (-50 * p)
  have hden : (0 : ℝ) < 1 - Real.exp (-50 : ℝ) := by linarith
  unfold corrR
  set w := (1 - Real.exp (-50 * p)) / (1 - Real.exp (-50 : ℝ)) with hw
  have hw0 : 0 ≤ w := div_nonneg (by linarith) hden.le
  have hw1 : w ≤ 1 := (div_le_one hden).mpr (by linarith)
  constructor <;> nlinarith

theorem matB_half_bounds : 0 ≤ matB (1 / 2) ∧ matB (1 / 2) ≤ 0.0245 := by
  have hlog : Real.log (1 / 2 : ℝ) = -Real.log 2 := by
    rw [one_div, Real.log_inv]
  constructor
  · unfold matB; positivity
  · unfold matB
    rw [hlog]
    nlinarith [Real.log_two_lt_d9, Real.log_two_gt_d9]

theorem matB_p99_bounds : 0 ≤ matB 0.99 ∧ matB 0.99 ≤ 0.0142 := by
  have hup : Real.log (0.99 : ℝ) ≤ 0 := Real.log_nonpos (by norm_num) (by norm_num)
  have hlow : -(1 / 99 : ℝ) ≤ Real.log 0.99 := by
    have h := Real.log_le_sub_one_of_pos (x := (100 / 99 : ℝ)) (by norm_num)
    have hinv : Real.log (0.99 : ℝ) = -Real.log (100 / 99) := by
      rw [show (0.99 : ℝ) = (100 / 99 : ℝ)⁻¹ by norm_num, Real.log_inv]
    rw [hinv]
    have : Real.log (100 / 99 : ℝ) ≤ 1 / 99 := by
      calc Real.log (100 / 99 : ℝ) ≤ 100 / 99 - 1 := h
        _ = 1 / 99 := by norm_num
    linarith
  constructor
  · unfold matB; positivity
  · unfold matB
    nlinarith


theorem capital_factor_le (v b : ℝ) (hv : v ≤ 1) (hb0 : 0 ≤ b)
    (hb1 : b ≤ 0.0142) :
    (1 * v - 0.99 * 1) * (1 + (2.5 - 2.5) * b) / (1 - 1.5 * b) ≤ 0.0103 := by
  have hden : (0.9787 : ℝ) ≤ 1 - 1.5 * b := by nlinarith
  rw [div_le_iff (by linarith)]
  nlinarith

theorem capital_factor_ge (v b : ℝ) (hv : 0.52 ≤ v) (hb0 : 0 ≤ b)
    (hb1 : b ≤ 0.0245) :
    (0.02 : ℝ) ≤ (1 * v - 0.5 * 1) * (1 + (2.5 - 2.5) * b) / (1 - 1.5 * b) := by
  have hden0 : (0.96 : ℝ) ≤ 1 - 1.5 * b := by nlinarith
  have hden1 : 1 - 1.5 * b ≤ 1 := by nlinarith
  rw [le_div_iff (by linarith)]
  nlinarith

theorem normCdf_arg_half_ge :
    (0.52 : ℝ) ≤ normCdf ((normPpf 0.5 + Real.sqrt (corrR 0.5) * normPpf 0.999) /
      Real.sqrt (1 - corrR 0.5)) := by
  have hr := corrR_mem (p := 0.5) (by norm_num) (by norm_num)
  have hsr : (0.34 : ℝ) ≤ Real.sqrt (corrR 0.5) := by
    have h12 : (0.34 : ℝ) ≤ Real.sqrt 0.12 := by
      rw [Real.le_sqrt (by norm_num) (by norm_num)]
      norm_num
    exact h12.trans (Real.sqrt_le_sqrt hr.1)
  have hsr1 : Real.sqrt (1 - corrR 0.5) ≤ 1 := by
    calc Real.sqrt (1 - corrR 0.5) ≤ Real.sqrt 1 :=
          Real.sqrt_le_sqrt (by linarith [hr.1])
      _ = 1 := Real.sqrt_one
  have hsr1pos : 0 < Real.sqrt (1 - corrR 0.5) :=
    Real.sqrt_pos.mpr (by linarith [hr.2])
  have hc := normPpf_999_ge
  have h05 : normPpf 0.5 = 0 := by
    rw [show (0.5 : ℝ) = 1 / 2 by norm_num]
    exact normPpf_half
  have hA : (0.34 : ℝ) ≤ (normPpf 0.5 + Real.sqrt (corrR 0.5) * normPpf 0.999) /
      Real.sqrt (1 - corrR 0.5) := by
    rw [h05, zero_add, le_div_iff hsr1pos]
    have hnum : (0.34 : ℝ) ≤ Real.sqrt (corrR 0.5) * normPpf 0.999 := by
      calc (0.34 : ℝ) = 0.34 * 1 := by ring
        _ ≤ Real.sqrt (corrR 0.5) * normPpf 0.999 :=
            mul_le_mul hsr hc (by norm_num) (by positivity)
    nlinarith [hsr1pos.le]
  calc (0.52 : ℝ) ≤ normCdf 0.34 := normCdf_point34_ge
    _ ≤ normCdf ((normPpf 0.5 + Real.sqrt (corrR 0.5) * normPpf 0.999) /
        Real.sqrt (1 - corrR 0.5)) := normCdf_strictMono.monotone hA

/-- C1 (counterexample): the capital charge computed by `calculate_rwa` is not
monotonically non-decreasing in `pd`: at exposure `1`, lgd `1`, maturity `2.5`
(inside `[1, 10]`), the charge at `pd = 0.99` is strictly smaller than the
charge at `pd = 0.5`, although `0.5 ≤ 0.99`. -/
theorem c1_capital_not_monotone_in_pd :
    calculate_rwa 1 0.99 1 2.5 < calculate_rwa 1 0.5 1 2.5 := by
  have hp2 : max (0.99 : ℝ) 0.0003 = 0.99 := max_eq_left (by norm_num)
  have hp1 : max (0.5 : ℝ) 0.0003 = 0.5 := max_eq_left (by norm_num)
  have hb2 := matB_p99_bounds
  have hb1 := matB_half_bounds
  have hb1' : matB 0.5 = matB (1 / 2) := by norm_num
  have h2 := capital_factor_le
    (normCdf ((normPpf 0.99 + Real.sqrt (corrR 0.99) * normPpf 0.999) /
      Real.sqrt (1 - corrR 0.99))) (matB 0.99)
    (normCdf_le_one _) hb2.1 hb2.2
  have h1 := capital_factor_ge
    (normCdf ((normPpf 0.5 + Real.sqrt (corrR 0.5) * normPpf 0.999) /
      Real.sqrt (1 - corrR 0.5))) (matB 0.5)
    normCdf_arg_half_ge (by rw [hb1']; exact hb1.1) (by rw [hb1']; exact hb1.2)
  simp only [calculate_rwa, hp2, hp1]
  nlinarith [h1, h2]

/-- C1 (amended): monotonicity of `calculate_rwa` in `pd` fails on `(0, 1)`
(see the counterexample), but it does hold on the floored region: for every
exposure, lgd and maturity, and all `0 < pd1 ≤ pd2 ≤ 0.0003`, the regulatory
floor makes the capital charge constant, hence non-decreasing, in `pd`. -/
theorem c1_capital_monotone_on_floor_region (exposure lgd maturity pd1 pd2 : ℝ)
    (h0 : 0 < pd1) (h12 : pd1 ≤ pd2) (h2 : pd2 ≤ 0.0003) :
    calculate_rwa exposure pd1 lgd maturity ≤
      calculate_rwa exposure pd2 lgd maturity := by
  unfold calculate_rwa
  rw [max_eq_right (h12.trans h2), max_eq_right h2]

/-- Witness for the amended C1 at `pd1 = 0.0001`, `pd2 = 0.0002`. -/
theorem c1_capital_monotone_on_floor_region_witness :
    calculate_rwa 1 0.0001 1 2.5 ≤ calculate_rwa 1 0.0002 1 2.5 :=
  c1_capital_monotone_on_floor_region 1 1 2.5 0.0001 0.0002 (by norm_num)
    (by norm_num) (by norm_num)
